import Mathlib

/-!
# Verification of the Hyperliquid strategy-plugin state machines

Shallow embedding of the two strategy variants in this repository:

* `examples/strategy-simple` — the buy-low / sell-high cycle
  (`SimpleConfig`, `SimpleState`, `SimpleStrategy`);
* `templates/strategy-template` — the templated skeleton
  (`MyConfig`, `MyState`, `MyStrategy`).

Rust `Decimal` values (exact decimals) are embedded as `ℚ`; machine strings
stay `String`.  The host context (`StrategyContext`) is embedded by returning
the list of commands a callback hands to the host, in emission order, and the
fresh client-order-id generator is an explicit counter threaded through the
callbacks.  A Rust `.unwrap()` panic is embedded as `Option.none` in the
callback's result.
-/

namespace Supurr

/-- Trading environment (`bot_core::Environment`). -/
inductive Environment where
  | Mainnet
  | Testnet
deriving DecidableEq, Repr

/-- Modelled from the spec: the market selector carries
"exchange+instrument+index in one field". -/
structure Market where
  exchange : String
  instrument : String
  index : String
deriving DecidableEq, Repr

/-- Modelled from the spec: an exchange instance pairs the market's exchange
with the configured environment. -/
structure ExchangeInstance where
  exchange : String
  environment : Environment
deriving DecidableEq, Repr

/-- `Market::exchange_instance(environment)`. -/
def Market.exchange_instance (m : Market) (env : Environment) : ExchangeInstance :=
  ⟨m.exchange, env⟩

/-- `Market::instrument_id()`. -/
def Market.instrument_id (m : Market) : String :=
  m.instrument

/-- Modelled from the spec: instrument metadata holds "tick size, lot size,
and rounding functions for price/quantity" (`bot_core::InstrumentMeta`). -/
structure InstrumentMeta where
  tick_size : ℚ
  lot_size : ℚ
deriving DecidableEq, Repr

/-- Modelled from the spec: "Round price to the instrument's tick size"
(rounding to the nearer tick). -/
def InstrumentMeta.round_price (m : InstrumentMeta) (p : ℚ) : ℚ :=
  (round (p / m.tick_size) : ℤ) * m.tick_size

/-- Modelled from the spec: buy-side quantity rounding "may round toward the
nearer valid lot". -/
def InstrumentMeta.round_qty (m : InstrumentMeta) (q : ℚ) : ℚ :=
  (round (q / m.lot_size) : ℤ) * m.lot_size

/-- Modelled from the spec: sell-side quantity rounding "must truncate
(round down)". -/
def InstrumentMeta.trunc_qty (m : InstrumentMeta) (q : ℚ) : ℚ :=
  (⌊q / m.lot_size⌋ : ℤ) * m.lot_size

/-- Order side (`bot_core::OrderSide`). -/
inductive OrderSide where
  | Buy
  | Sell
deriving DecidableEq, Repr

/-- Modelled from the spec: an order command has "side, price, quantity, and
an identifier assigned by the Automaton" (`bot_core::PlaceOrder`). -/
structure PlaceOrder where
  exchange : ExchangeInstance
  instrument : String
  side : OrderSide
  price : ℚ
  qty : ℚ
  client_id : ℕ
deriving DecidableEq, Repr

/-- `PlaceOrder::limit` with the freshly generated client id made explicit:
the spec says a placement must "assign a fresh local order identifier", which
the embedding supplies from a counter. -/
def PlaceOrder.limit (ex : ExchangeInstance) (ins : String) (side : OrderSide)
    (price qty : ℚ) (cid : ℕ) : PlaceOrder :=
  ⟨ex, ins, side, price, qty, cid⟩

/-- A decimal rendered as a string for log lines (stands in for Rust's
`Display` of `Decimal`; no claim depends on the exact text). -/
def ratStr (q : ℚ) : String :=
  if q.den = 1 then toString q.num else toString q.num ++ "/" ++ toString q.den

/-- One outbound effect handed to the host context: the side-effecting methods
of `bot_core::StrategyContext` used by the strategies. -/
inductive Cmd where
  | placeOrder (o : PlaceOrder)
  | cancelAll (ex : ExchangeInstance)
  | stopStrategy (id : String) (reason : String)
  | logInfo (msg : String)
  | logWarn (msg : String)
  | logError (msg : String)
deriving DecidableEq, Repr

/-- The place-order commands among a command list. -/
def orderCmds (cmds : List Cmd) : List PlaceOrder :=
  cmds.filterMap fun c =>
    match c with
    | .placeOrder o => some o
    | _ => none

/-- Number of `stop_strategy` requests in a command list. -/
def countStops (cmds : List Cmd) : ℕ :=
  (cmds.filter fun c =>
    match c with
    | .stopStrategy _ _ => true
    | _ => false).length

/-- Number of `cancel_all` commands in a command list. -/
def countCancels (cmds : List Cmd) : ℕ :=
  (cmds.filter fun c =>
    match c with
    | .cancelAll _ => true
    | _ => false).length

/-- Every `stop_strategy` request in the list carries a non-empty reason. -/
def stopReasonsNonempty (cmds : List Cmd) : Prop :=
  ∀ i r, Cmd.stopStrategy i r ∈ cmds → r ≠ ""

instance (cmds : List Cmd) : Decidable (stopReasonsNonempty cmds) := by
  unfold stopReasonsNonempty
  induction cmds with
  | nil => exact .isTrue (by intro i r h; cases h)
  | cons c rest ih =>
    cases ih with
    | isTrue hrest =>
      cases c with
      | stopStrategy i r =>
        exact if hr : r = "" then
          .isFalse (fun h => h i r (List.mem_cons_self _ _) hr)
        else
          .isTrue (by
            intro i' r' hmem
            rcases List.mem_cons.mp hmem with heq | hmem'
            · cases heq; exact fun h => hr (h ▸ rfl)
            · exact hrest i' r' hmem')
      | placeOrder o => exact .isTrue (by
          intro i' r' hmem
          rcases List.mem_cons.mp hmem with heq | hmem'
          · cases heq
          · exact hrest i' r' hmem')
      | cancelAll e => exact .isTrue (by
          intro i' r' hmem
          rcases List.mem_cons.mp hmem with heq | hmem'
          · cases heq
          · exact hrest i' r' hmem')
      | logInfo s => exact .isTrue (by
          intro i' r' hmem
          rcases List.mem_cons.mp hmem with heq | hmem'
          · cases heq
          · exact hrest i' r' hmem')
      | logWarn s => exact .isTrue (by
          intro i' r' hmem
          rcases List.mem_cons.mp hmem with heq | hmem'
          · cases heq
          · exact hrest i' r' hmem')
      | logError s => exact .isTrue (by
          intro i' r' hmem
          rcases List.mem_cons.mp hmem with heq | hmem'
          · cases heq
          · exact hrest i' r' hmem')
    | isFalse hrest =>
      exact .isFalse (fun h => hrest (fun i r hmem => h i r (List.mem_cons_of_mem _ hmem)))

/-! ## `examples/strategy-simple` -/

/-- `SimpleConfig` (`examples/strategy-simple/src/config.rs`). -/
structure SimpleConfig where
  strategy_id : String
  environment : Environment
  market : Market
  buy_price : ℚ
  sell_price : ℚ
  order_size : ℚ
deriving DecidableEq, Repr

/-- `SimpleConfig::validate` (`config.rs`): pushes one message per violated
rule, in source order. -/
def SimpleConfig.validate (c : SimpleConfig) : List String :=
  let errors : List String := []
  let errors := if c.sell_price ≤ c.buy_price
    then errors ++ ["buy_price must be < sell_price"] else errors
  let errors := if c.order_size ≤ 0
    then errors ++ ["order_size must be > 0"] else errors
  errors

/-- `Phase` (`examples/strategy-simple/src/state.rs`). -/
inductive Phase where
  | WaitingToBuy
  | BuyPlaced
  | WaitingToSell
  | SellPlaced
deriving DecidableEq, Repr

/-- `SimpleState` (`state.rs`): phase plus at most one outstanding
client order id. -/
structure SimpleState where
  phase : Phase
  active_order : Option ℕ
deriving DecidableEq, Repr

/-- `SimpleState::new`. -/
def SimpleState.new : SimpleState :=
  ⟨Phase.WaitingToBuy, none⟩

/-- `SimpleStrategy` (`examples/strategy-simple/src/strategy.rs`): config,
runtime state, and the instrument-metadata cache. -/
structure SimpleStrategy where
  config : SimpleConfig
  state : SimpleState
  meta : Option InstrumentMeta
deriving DecidableEq, Repr

/-- `SimpleStrategy::new`. -/
def SimpleStrategy.new (config : SimpleConfig) : SimpleStrategy :=
  ⟨config, SimpleState.new, none⟩

/-- `SimpleStrategy::exchange`. -/
def SimpleStrategy.exchange (s : SimpleStrategy) : ExchangeInstance :=
  s.config.market.exchange_instance s.config.environment

/-- `SimpleStrategy::instrument`. -/
def SimpleStrategy.instrument (s : SimpleStrategy) : String :=
  s.config.market.instrument_id

/-- One primitive side effect of a callback body, in program order: a runtime
state mutation or a command handed to the host context. -/
inductive Effect where
  | setActiveOrder (o : Option ℕ)
  | setPhase (p : Phase)
  | emit (c : Cmd)
deriving DecidableEq, Repr

/-- Run a list of effects left to right over the runtime state, returning the
final state and the commands emitted, in order. -/
def runEffects (st : SimpleState) : List Effect → SimpleState × List Cmd
  | [] => (st, [])
  | Effect.setActiveOrder o :: rest => runEffects { st with active_order := o } rest
  | Effect.setPhase p :: rest => runEffects { st with phase := p } rest
  | Effect.emit c :: rest =>
      let r := runEffects st rest
      (r.1, c :: r.2)

/-- The body of `SimpleStrategy::place_buy` as its ordered effect list
(`strategy.rs` lines 35–57), for a cached metadata record `m` and fresh
client id `cid`: record the id, enter `BuyPlaced`, then emit the order and
the log line. -/
def place_buy_trace (s : SimpleStrategy) (m : InstrumentMeta) (cid : ℕ) :
    List Effect :=
  let price := m.round_price s.config.buy_price
  let qty := m.round_qty s.config.order_size
  let order := PlaceOrder.limit s.exchange s.instrument OrderSide.Buy price qty cid
  [Effect.setActiveOrder (some order.client_id),
   Effect.setPhase Phase.BuyPlaced,
   Effect.emit (Cmd.placeOrder order),
   Effect.emit (Cmd.logInfo ("BUY order placed @ " ++ ratStr price))]

/-- The body of `SimpleStrategy::place_sell` as its ordered effect list
(`strategy.rs` lines 59–81): like `place_buy_trace` but with truncating
quantity rounding, the sell side and `SellPlaced`. -/
def place_sell_trace (s : SimpleStrategy) (m : InstrumentMeta) (cid : ℕ) :
    List Effect :=
  let price := m.round_price s.config.sell_price
  let qty := m.trunc_qty s.config.order_size
  let order := PlaceOrder.limit s.exchange s.instrument OrderSide.Sell price qty cid
  [Effect.setActiveOrder (some order.client_id),
   Effect.setPhase Phase.SellPlaced,
   Effect.emit (Cmd.placeOrder order),
   Effect.emit (Cmd.logInfo ("SELL order placed @ " ++ ratStr price))]

/-- `SimpleStrategy::place_buy`: `none` models the `.unwrap()` panic when the
metadata cache is empty; otherwise the effect trace is run and the fresh-id
counter advances. -/
def SimpleStrategy.place_buy (s : SimpleStrategy) (nid : ℕ) :
    Option (SimpleStrategy × List Cmd × ℕ) :=
  match s.meta with
  | none => none
  | some m =>
      let r := runEffects s.state (place_buy_trace s m nid)
      some ({ s with state := r.1 }, r.2, nid + 1)

/-- `SimpleStrategy::place_sell`: as `place_buy` with the sell trace. -/
def SimpleStrategy.place_sell (s : SimpleStrategy) (nid : ℕ) :
    Option (SimpleStrategy × List Cmd × ℕ) :=
  match s.meta with
  | none => none
  | some m =>
      let r := runEffects s.state (place_sell_trace s m nid)
      some ({ s with state := r.1 }, r.2, nid + 1)

/-- Data of `Event::OrderCompleted`. -/
structure OrderCompletedEv where
  client_id : ℕ
  avg_fill_px : ℚ
  filled_qty : ℚ
deriving DecidableEq, Repr

/-- Data of `Event::OrderCanceled`. -/
structure OrderCanceledEv where
  client_id : ℕ
deriving DecidableEq, Repr

/-- Data of `Event::OrderRejected`. -/
structure OrderRejectedEv where
  client_id : ℕ
  reason : String
deriving DecidableEq, Repr

/-- Data of `Event::Quote`; `mid` is the quote midpoint used by the template
strategy. -/
structure QuoteEv where
  bid : ℚ
  ask : ℚ
deriving DecidableEq, Repr

/-- `Quote::mid`, modelled from the spec's "latest observed reference
price": the bid/ask midpoint. -/
def QuoteEv.mid (q : QuoteEv) : ℚ :=
  (q.bid + q.ask) / 2

/-- Data of `Event::OrderFilled`. -/
structure OrderFilledEv where
  side : OrderSide
  client_id : ℕ
  price : ℚ
  qty : ℚ
deriving DecidableEq, Repr

/-- Data of `Event::ExchangeStateChanged`. -/
structure ExchangeStateChangedEv where
  old_state : String
  new_state : String
  reason : String
deriving DecidableEq, Repr

/-- `bot_core::Event`: the kinds matched by the two strategies, plus `Other`
standing for every further kind covered by the strategies' wildcard arm (the
spec's "open extension point"). -/
inductive Event where
  | OrderCompleted (c : OrderCompletedEv)
  | OrderCanceled (c : OrderCanceledEv)
  | OrderRejected (r : OrderRejectedEv)
  | Quote (q : QuoteEv)
  | OrderFilled (f : OrderFilledEv)
  | ExchangeStateChanged (e : ExchangeStateChangedEv)
  | Other (tag : ℕ)
deriving DecidableEq, Repr

/-- Whether the simple strategy's `on_event` has a non-wildcard arm for the
event: the three terminal order events. -/
def Event.isOrderTerminal : Event → Bool
  | .OrderCompleted _ => true
  | .OrderCanceled _ => true
  | .OrderRejected _ => true
  | _ => false

/-- `<SimpleStrategy as Strategy>::on_start` (`strategy.rs` lines 89–106).
`lookup` is the host's `instrument_meta` result; the result is the updated
strategy, the emitted commands in order, and the advanced id counter
(`none` would model a panic — `on_start` never panics). -/
def SimpleStrategy.on_start (s : SimpleStrategy) (lookup : Option InstrumentMeta)
    (nid : ℕ) : Option (SimpleStrategy × List Cmd × ℕ) :=
  match lookup with
  | none =>
      some ({ s with meta := none },
        [Cmd.stopStrategy s.config.strategy_id "Instrument not found"], nid)
  | some m =>
      if s.config.validate.isEmpty then
        match ({ s with meta := some m } : SimpleStrategy).place_buy nid with
        | none => none
        | some (s', cmds, nid') =>
            some (s',
              Cmd.logInfo ("SimpleStrategy started: buy@" ++ ratStr s.config.buy_price
                ++ " sell@" ++ ratStr s.config.sell_price
                ++ " qty=" ++ ratStr s.config.order_size) :: cmds,
              nid')
      else
        some ({ s with meta := some m },
          [Cmd.stopStrategy s.config.strategy_id (String.intercalate "; " s.config.validate)],
          nid)

/-- `<SimpleStrategy as Strategy>::on_event` (`strategy.rs` lines 108–132). -/
def SimpleStrategy.on_event (s : SimpleStrategy) (e : Event) (nid : ℕ) :
    Option (SimpleStrategy × List Cmd × ℕ) :=
  match e with
  | .OrderCompleted c =>
      match s.state.phase with
      | Phase.BuyPlaced =>
          match s.place_sell nid with
          | none => none
          | some (s', cmds, nid') =>
              some (s',
                Cmd.logInfo ("Buy filled @ avg=" ++ ratStr c.avg_fill_px) :: cmds,
                nid')
      | Phase.SellPlaced =>
          match s.place_buy nid with
          | none => none
          | some (s', cmds, nid') =>
              some (s',
                Cmd.logInfo ("Sell filled @ avg=" ++ ratStr c.avg_fill_px
                  ++ " — cycle complete!") :: cmds,
                nid')
      | _ => some (s, [], nid)
  | .OrderCanceled _ | .OrderRejected _ =>
      match ({ s with state := ⟨Phase.WaitingToBuy, none⟩ } : SimpleStrategy).place_buy nid with
      | none => none
      | some (s', cmds, nid') =>
          some (s',
            Cmd.logWarn "Order canceled/rejected — resetting to buy phase" :: cmds,
            nid')
  | _ => some (s, [], nid)

/-- `<SimpleStrategy as Strategy>::on_timer`: a no-op. -/
def SimpleStrategy.on_timer (s : SimpleStrategy) (_timer_id : ℕ) (nid : ℕ) :
    Option (SimpleStrategy × List Cmd × ℕ) :=
  some (s, [], nid)

/-- `<SimpleStrategy as Strategy>::on_stop`: cancel everything and log. -/
def SimpleStrategy.on_stop (s : SimpleStrategy) : SimpleStrategy × List Cmd :=
  (s, [Cmd.cancelAll s.exchange, Cmd.logInfo "SimpleStrategy stopped"])

/-- One host callback delivered between start and stop. -/
inductive Callback where
  | event (e : Event)
  | timer (timer_id : ℕ)
deriving DecidableEq, Repr

/-- Dispatch one callback. -/
def SimpleStrategy.on_callback (s : SimpleStrategy) (cb : Callback) (nid : ℕ) :
    Option (SimpleStrategy × List Cmd × ℕ) :=
  match cb with
  | .event e => s.on_event e nid
  | .timer t => s.on_timer t nid

/-- Deliver a list of callbacks in order, concatenating the emitted commands;
`none` as soon as one callback panics. -/
def runCallbacks (s : SimpleStrategy) (nid : ℕ) :
    List Callback → Option (SimpleStrategy × List Cmd × ℕ)
  | [] => some (s, [], nid)
  | cb :: rest =>
      match s.on_callback cb nid with
      | none => none
      | some (s', cmds, nid') =>
          match runCallbacks s' nid' rest with
          | none => none
          | some (s'', cmds', nid'') => some (s'', cmds ++ cmds', nid'')

/-- A complete run of the simple strategy: construction, `on_start` against
the host's metadata lookup result, then the delivered callbacks. -/
def startedRun (cfg : SimpleConfig) (lookup : Option InstrumentMeta)
    (cbs : List Callback) (nid : ℕ) : Option (SimpleStrategy × List Cmd × ℕ) :=
  match (SimpleStrategy.new cfg).on_start lookup nid with
  | none => none
  | some (s, cmds, nid') =>
      match runCallbacks s nid' cbs with
      | none => none
      | some (s', cmds', nid'') => some (s', cmds ++ cmds', nid'')

/-- The phase invariant of the simple strategy's runtime state: an order id is
recorded exactly in the two "placed" phases. -/
def phaseInv (st : SimpleState) : Prop :=
  st.active_order.isSome = true ↔ (st.phase = Phase.BuyPlaced ∨ st.phase = Phase.SellPlaced)

instance (st : SimpleState) : Decidable (phaseInv st) := by
  unfold phaseInv; infer_instance

/-! ## `templates/strategy-template` -/

/-- `MyConfig` (`templates/strategy-template/src/config.rs`). -/
structure MyConfig where
  strategy_id : String
  environment : Environment
  market : Market
  order_size : ℚ
deriving DecidableEq, Repr

/-- `MyConfig::validate`. -/
def MyConfig.validate (c : MyConfig) : List String :=
  let errors : List String := []
  let errors := if c.order_size ≤ 0
    then errors ++ ["order_size must be > 0"] else errors
  errors

/-- `MyState` (`templates/strategy-template/src/state.rs`). -/
structure MyState where
  is_initialized : Bool
  last_mid : Option ℚ
  active_order : Option ℕ
  last_log_ts : ℤ
deriving DecidableEq, Repr

/-- `MyState::new`. -/
def MyState.new : MyState :=
  ⟨false, none, none, 0⟩

/-- The status line `on_timer` logs for an observed mid price. -/
def statusMsg (mid : ℚ) (active : Option ℕ) : String :=
  "Status: mid=" ++ ratStr mid ++ " active_order=" ++
    (match active with
     | some cid => "Some(" ++ toString cid ++ ")"
     | none => "None")

/-- `<MyStrategy as Strategy>::on_timer` (`templates/strategy-template/src/strategy.rs`
lines 156–170): `now` is the host's `now_ms()`; returns the updated state and
the emitted commands. -/
def MyStrategy.on_timer (st : MyState) (now : ℤ) : MyState × List Cmd :=
  if 30000 < now - st.last_log_ts then
    let cmds :=
      match st.last_mid with
      | some mid => [Cmd.logInfo (statusMsg mid st.active_order)]
      | none => []
    ({ st with last_log_ts := now }, cmds)
  else
    (st, [])

/-! ## Concrete fixtures (used by witnesses and counterexamples) -/

/-- Scenario A/B/C configuration: `buy_price=100, sell_price=110, order_size=1`. -/
def cfgA : SimpleConfig :=
  ⟨"simple-1", Environment.Mainnet, ⟨"hyperliquid", "BTC", "0"⟩, 100, 110, 1⟩

/-- Scenario E configuration: `buy_price=110, sell_price=100` (invalid). -/
def cfgE : SimpleConfig :=
  ⟨"simple-1", Environment.Mainnet, ⟨"hyperliquid", "BTC", "0"⟩, 110, 100, 1⟩

/-- A concrete instrument-metadata record: tick size 1/2, lot size 1/10. -/
def metaA : InstrumentMeta :=
  ⟨1/2, 1/10⟩

/-! ## Lemmas about the simple strategy -/

/-- `place_buy` panics exactly when the metadata cache is empty. -/
theorem place_buy_none_iff (s : SimpleStrategy) (nid : ℕ) :
    s.place_buy nid = none ↔ s.meta = none := by
  unfold SimpleStrategy.place_buy
  cases s.meta <;> simp

/-- Explicit form of a successful `place_buy`. -/
theorem place_buy_eq (s : SimpleStrategy) (m : InstrumentMeta) (nid : ℕ)
    (h : s.meta = some m) :
    s.place_buy nid =
      some ({ s with state := ⟨Phase.BuyPlaced, some nid⟩ },
        [Cmd.placeOrder (PlaceOrder.limit s.exchange s.instrument OrderSide.Buy
            (m.round_price s.config.buy_price) (m.round_qty s.config.order_size) nid),
         Cmd.logInfo ("BUY order placed @ " ++ ratStr (m.round_price s.config.buy_price))],
        nid + 1) := by
  unfold SimpleStrategy.place_buy
  rw [h]
  simp [place_buy_trace, runEffects, PlaceOrder.limit]

/-- Explicit form of a successful `place_sell`. -/
theorem place_sell_eq (s : SimpleStrategy) (m : InstrumentMeta) (nid : ℕ)
    (h : s.meta = some m) :
    s.place_sell nid =
      some ({ s with state := ⟨Phase.SellPlaced, some nid⟩ },
        [Cmd.placeOrder (PlaceOrder.limit s.exchange s.instrument OrderSide.Sell
            (m.round_price s.config.sell_price) (m.trunc_qty s.config.order_size) nid),
         Cmd.logInfo ("SELL order placed @ " ++ ratStr (m.round_price s.config.sell_price))],
        nid + 1) := by
  unfold SimpleStrategy.place_sell
  rw [h]
  simp [place_sell_trace, runEffects, PlaceOrder.limit]

/-- The possible outputs of `validate`, by case split on the two rules. -/
theorem validate_cases (c : SimpleConfig) :
    (c.validate = [] ∧ c.buy_price < c.sell_price ∧ 0 < c.order_size) ∨
    (c.validate = ["buy_price must be < sell_price"] ∧ c.sell_price ≤ c.buy_price) ∨
    (c.validate = ["order_size must be > 0"] ∧ c.order_size ≤ 0) ∨
    (c.validate = ["buy_price must be < sell_price", "order_size must be > 0"] ∧
      c.sell_price ≤ c.buy_price ∧ c.order_size ≤ 0) := by
  unfold SimpleConfig.validate
  by_cases h1 : c.sell_price ≤ c.buy_price <;> by_cases h2 : c.order_size ≤ 0
  · exact Or.inr (Or.inr (Or.inr (by simp [h1, h2])))
  · exact Or.inr (Or.inl (by simp [h1, h2]))
  · exact Or.inr (Or.inr (Or.inl (by simp [h1, h2])))
  · exact Or.inl (by simp [h1, h2]; exact ⟨lt_of_not_le h1, lt_of_not_le h2⟩)


/-- Shape of a successful `place_buy`: config and metadata untouched, state
moved to `BuyPlaced` with the fresh id recorded. -/
theorem place_buy_shape (s : SimpleStrategy) (nid : ℕ)
    (r : SimpleStrategy × List Cmd × ℕ) (h : s.place_buy nid = some r) :
    r.1.meta = s.meta ∧ r.1.config = s.config ∧
      r.1.state = ⟨Phase.BuyPlaced, some nid⟩ := by
  cases hm : s.meta with
  | none =>
      unfold SimpleStrategy.place_buy at h
      rw [hm] at h
      cases h
  | some m =>
      rw [place_buy_eq s m nid hm] at h
      injection h with h
      subst h
      simp [hm]

/-- Shape of a successful `place_sell`. -/
theorem place_sell_shape (s : SimpleStrategy) (nid : ℕ)
    (r : SimpleStrategy × List Cmd × ℕ) (h : s.place_sell nid = some r) :
    r.1.meta = s.meta ∧ r.1.config = s.config ∧
      r.1.state = ⟨Phase.SellPlaced, some nid⟩ := by
  cases hm : s.meta with
  | none =>
      unfold SimpleStrategy.place_sell at h
      rw [hm] at h
      cases h
  | some m =>
      rw [place_sell_eq s m nid hm] at h
      injection h with h
      subst h
      simp [hm]

/-- `on_event` on an event with no dedicated arm is a no-op. -/
theorem on_event_ignored (s : SimpleStrategy) (e : Event) (nid : ℕ)
    (h : e.isOrderTerminal = false) :
    s.on_event e nid = some (s, [], nid) := by
  cases e <;> simp_all [Event.isOrderTerminal] <;> rfl

/-- Any successful `on_event` leaves config and metadata untouched and either
leaves the runtime state unchanged or moves it to a freshly placed state. -/
theorem on_event_shape (s : SimpleStrategy) (e : Event) (nid : ℕ)
    (s' : SimpleStrategy) (cmds : List Cmd) (nid' : ℕ)
    (h : s.on_event e nid = some (s', cmds, nid')) :
    s'.meta = s.meta ∧ s'.config = s.config ∧
      (s'.state = s.state ∨ s'.state = ⟨Phase.BuyPlaced, some nid⟩ ∨
        s'.state = ⟨Phase.SellPlaced, some nid⟩) := by
  cases e with
  | OrderCompleted c =>
      simp only [SimpleStrategy.on_event] at h
      split at h
      · -- BuyPlaced: place_sell
        split at h
        · cases h
        · rename_i s2 cmds2 nid2 heq
          obtain ⟨h1, h2, h3⟩ := place_sell_shape _ _ _ heq
          injection h with h
          injection h with ha h
          subst ha
          exact ⟨h1, h2, Or.inr (Or.inr h3)⟩
      · -- SellPlaced: place_buy
        split at h
        · cases h
        · rename_i s2 cmds2 nid2 heq
          obtain ⟨h1, h2, h3⟩ := place_buy_shape _ _ _ heq
          injection h with h
          injection h with ha h
          subst ha
          exact ⟨h1, h2, Or.inr (Or.inl h3)⟩
      · -- other phases: no-op
        injection h with h
        injection h with ha h
        subst ha
        exact ⟨rfl, rfl, Or.inl rfl⟩
  | OrderCanceled c =>
      simp only [SimpleStrategy.on_event] at h
      split at h
      · cases h
      · rename_i s2 cmds2 nid2 heq
        obtain ⟨h1, h2, h3⟩ := place_buy_shape _ _ _ heq
        injection h with h
        injection h with ha h
        subst ha
        exact ⟨h1, h2, Or.inr (Or.inl h3)⟩
  | OrderRejected c =>
      simp only [SimpleStrategy.on_event] at h
      split at h
      · cases h
      · rename_i s2 cmds2 nid2 heq
        obtain ⟨h1, h2, h3⟩ := place_buy_shape _ _ _ heq
        injection h with h
        injection h with ha h
        subst ha
        exact ⟨h1, h2, Or.inr (Or.inl h3)⟩
  | Quote q =>
      rw [on_event_ignored s (Event.Quote q) nid rfl] at h
      injection h with h
      injection h with ha h
      subst ha
      exact ⟨rfl, rfl, Or.inl rfl⟩
  | OrderFilled f =>
      rw [on_event_ignored s (Event.OrderFilled f) nid rfl] at h
      injection h with h
      injection h with ha h
      subst ha
      exact ⟨rfl, rfl, Or.inl rfl⟩
  | ExchangeStateChanged e =>
      rw [on_event_ignored s (Event.ExchangeStateChanged e) nid rfl] at h
      injection h with h
      injection h with ha h
      subst ha
      exact ⟨rfl, rfl, Or.inl rfl⟩
  | Other tag =>
      rw [on_event_ignored s (Event.Other tag) nid rfl] at h
      injection h with h
      injection h with ha h
      subst ha
      exact ⟨rfl, rfl, Or.inl rfl⟩


/-- With metadata cached, `on_event` never panics. -/
theorem on_event_progress (s : SimpleStrategy) (m : InstrumentMeta) (e : Event)
    (nid : ℕ) (h : s.meta = some m) :
    ∃ r, s.on_event e nid = some r := by
  have hreset : ({ s with state := ⟨Phase.WaitingToBuy, none⟩ } : SimpleStrategy).meta
      = some m := h
  cases e with
  | OrderCompleted c =>
      simp only [SimpleStrategy.on_event]
      cases hph : s.state.phase
      · exact ⟨_, rfl⟩
      · rw [place_sell_eq s m nid h]
        exact ⟨_, rfl⟩
      · exact ⟨_, rfl⟩
      · rw [place_buy_eq s m nid h]
        exact ⟨_, rfl⟩
  | OrderCanceled c =>
      simp only [SimpleStrategy.on_event]
      rw [place_buy_eq _ m nid hreset]
      exact ⟨_, rfl⟩
  | OrderRejected c =>
      simp only [SimpleStrategy.on_event]
      rw [place_buy_eq _ m nid hreset]
      exact ⟨_, rfl⟩
  | Quote q => exact ⟨_, on_event_ignored s (Event.Quote q) nid rfl⟩
  | OrderFilled f => exact ⟨_, on_event_ignored s (Event.OrderFilled f) nid rfl⟩
  | ExchangeStateChanged e =>
      exact ⟨_, on_event_ignored s (Event.ExchangeStateChanged e) nid rfl⟩
  | Other tag => exact ⟨_, on_event_ignored s (Event.Other tag) nid rfl⟩

/-- Any successful callback dispatch preserves config, metadata and the phase
invariant. -/
theorem on_callback_shape (s : SimpleStrategy) (cb : Callback) (nid : ℕ)
    (r : SimpleStrategy × List Cmd × ℕ) (h : s.on_callback cb nid = some r) :
    r.1.meta = s.meta ∧ r.1.config = s.config ∧
      (phaseInv s.state → phaseInv r.1.state) := by
  cases cb with
  | event e =>
      obtain ⟨s', cmds, nid'⟩ := r
      obtain ⟨h1, h2, h3⟩ := on_event_shape s e nid s' cmds nid' h
      refine ⟨h1, h2, fun hinv => ?_⟩
      rcases h3 with h3 | h3 | h3 <;> rw [h3]
      · exact hinv
      · simp [phaseInv]
      · simp [phaseInv]
  | timer t =>
      injection h with h
      subst h
      exact ⟨rfl, rfl, id⟩

/-- With metadata cached, no callback panics. -/
theorem on_callback_progress (s : SimpleStrategy) (m : InstrumentMeta)
    (cb : Callback) (nid : ℕ) (h : s.meta = some m) :
    ∃ r, s.on_callback cb nid = some r := by
  cases cb with
  | event e => exact on_event_progress s m e nid h
  | timer t => exact ⟨_, rfl⟩

/-- Delivering any callback list preserves config, metadata and the phase
invariant. -/
theorem runCallbacks_shape (cbs : List Callback) :
    ∀ (s : SimpleStrategy) (nid : ℕ) (r : SimpleStrategy × List Cmd × ℕ),
      runCallbacks s nid cbs = some r →
      r.1.meta = s.meta ∧ r.1.config = s.config ∧
        (phaseInv s.state → phaseInv r.1.state) := by
  induction cbs with
  | nil =>
      intro s nid r h
      injection h with h
      subst h
      exact ⟨rfl, rfl, id⟩
  | cons cb rest ih =>
      intro s nid r h
      simp only [runCallbacks] at h
      split at h
      · cases h
      · rename_i s1 cmds1 nid1 heq1
        split at h
        · cases h
        · rename_i s2 cmds2 nid2 heq2
          obtain ⟨ha1, ha2, ha3⟩ := on_callback_shape s cb nid (s1, cmds1, nid1) heq1
          obtain ⟨hb1, hb2, hb3⟩ := ih s1 nid1 (s2, cmds2, nid2) heq2
          injection h with h
          subst h
          exact ⟨hb1.trans ha1, hb2.trans ha2, fun hinv => hb3 (ha3 hinv)⟩

/-- With metadata cached, delivering any callback list succeeds. -/
theorem runCallbacks_progress (cbs : List Callback) :
    ∀ (s : SimpleStrategy) (m : InstrumentMeta) (nid : ℕ), s.meta = some m →
      ∃ r, runCallbacks s nid cbs = some r := by
  induction cbs with
  | nil => intro s m nid _; exact ⟨_, rfl⟩
  | cons cb rest ih =>
      intro s m nid h
      obtain ⟨⟨s1, cmds1, nid1⟩, heq1⟩ := on_callback_progress s m cb nid h
      obtain ⟨h1, -, -⟩ := on_callback_shape s cb nid (s1, cmds1, nid1) heq1
      obtain ⟨⟨s2, cmds2, nid2⟩, heq2⟩ := ih s1 m nid1 (h1.trans h)
      exact ⟨(s2, cmds1 ++ cmds2, nid2), by simp only [runCallbacks, heq1, heq2]⟩

/-- `on_start` never panics. -/
theorem on_start_progress (s : SimpleStrategy) (lookup : Option InstrumentMeta)
    (nid : ℕ) : ∃ r, s.on_start lookup nid = some r := by
  cases lookup with
  | none => exact ⟨_, rfl⟩
  | some m =>
      simp only [SimpleStrategy.on_start]
      by_cases hv : s.config.validate.isEmpty
      · rw [if_pos hv, place_buy_eq _ m nid rfl]
        exact ⟨_, rfl⟩
      · rw [if_neg hv]
        exact ⟨_, rfl⟩

/-- Any successful `on_start` stores the lookup result in the metadata cache,
keeps the config, and establishes the phase invariant. -/
theorem on_start_shape (s : SimpleStrategy) (lookup : Option InstrumentMeta)
    (nid : ℕ) (r : SimpleStrategy × List Cmd × ℕ)
    (h : s.on_start lookup nid = some r) :
    r.1.meta = lookup ∧ r.1.config = s.config ∧
      (phaseInv s.state → phaseInv r.1.state) := by
  cases lookup with
  | none =>
      injection h with h
      subst h
      exact ⟨rfl, rfl, id⟩
  | some m =>
      simp only [SimpleStrategy.on_start] at h
      split at h
      · split at h
        · cases h
        · rename_i s1 cmds1 nid1 heq1
          obtain ⟨h1, h2, h3⟩ := place_buy_shape _ _ _ heq1
          injection h with h
          subst h
          refine ⟨h1, h2, fun _ => ?_⟩
          rw [h3]
          simp [phaseInv]
      · injection h with h
        subst h
        exact ⟨rfl, rfl, id⟩

/-- The joined validation-error string of an invalid configuration is
non-empty. -/
theorem intercalate_validate_ne (c : SimpleConfig) (h : c.validate ≠ []) :
    String.intercalate "; " c.validate ≠ "" := by
  rcases validate_cases c with ⟨hl, -⟩ | ⟨hl, -⟩ | ⟨hl, -⟩ | ⟨hl, -⟩
  · exact absurd hl h
  · rw [hl]; decide
  · rw [hl]; decide
  · rw [hl]; decide

/-! ## The claims -/

/-- Claim C1: for the simple strategy, after `on_start` returns and after every
subsequent `on_event`/`on_timer` callback (and before `on_stop`),
`active_order` is `Some` iff the phase is `BuyPlaced` or `SellPlaced`; the
invariant also holds in the initial state built by `SimpleState::new`. -/
theorem C1_phase_invariant (cfg : SimpleConfig) (lookup : Option InstrumentMeta)
    (cbs : List Callback) (nid : ℕ) (r : SimpleStrategy × List Cmd × ℕ)
    (h : startedRun cfg lookup cbs nid = some r) :
    phaseInv SimpleState.new ∧ phaseInv r.1.state := by
  have hnew : phaseInv SimpleState.new := by decide
  refine ⟨hnew, ?_⟩
  unfold startedRun at h
  split at h
  · cases h
  · rename_i s1 cmds1 nid1 heq1
    split at h
    · cases h
    · rename_i s2 cmds2 nid2 heq2
      obtain ⟨-, -, h3⟩ := on_start_shape _ _ _ _ heq1
      obtain ⟨-, -, h6⟩ := runCallbacks_shape cbs s1 nid1 (s2, cmds2, nid2) heq2
      injection h with h
      subst h
      exact h6 (h3 hnew)

/-- Witness for C1: a concrete run (metadata lookup fails, no callbacks). -/
theorem C1_phase_invariant_witness :
    phaseInv SimpleState.new ∧
      phaseInv (SimpleStrategy.mk cfgE SimpleState.new none).state :=
  C1_phase_invariant cfgE none [] 0
    (SimpleStrategy.mk cfgE SimpleState.new none,
      [Cmd.stopStrategy "simple-1" "Instrument not found"], 0) (by decide)

/-- Claim C2: `validate` returns `[]` iff `buy_price < sell_price` and
`order_size > 0`, and any invalid configuration gets at least one message.
Purity is inherent in the embedding: `validate` is a function of the
configuration alone. -/
theorem C2_validate_iff (c : SimpleConfig) :
    (c.validate = [] ↔ (c.buy_price < c.sell_price ∧ 0 < c.order_size)) ∧
      (¬(c.buy_price < c.sell_price ∧ 0 < c.order_size) →
        1 ≤ c.validate.length) := by
  rcases validate_cases c with ⟨h, hb, hs⟩ | ⟨h, hb⟩ | ⟨h, hs⟩ | ⟨h, hb, hs⟩
  · exact ⟨⟨fun _ => ⟨hb, hs⟩, fun _ => h⟩, fun hv => absurd ⟨hb, hs⟩ hv⟩
  · refine ⟨⟨fun he => absurd he (by rw [h]; simp),
      fun hv => absurd hv.1 (not_lt.mpr hb)⟩, fun _ => by rw [h]; simp⟩
  · refine ⟨⟨fun he => absurd he (by rw [h]; simp),
      fun hv => absurd hv.2 (not_lt.mpr hs)⟩, fun _ => by rw [h]; simp⟩
  · refine ⟨⟨fun he => absurd he (by rw [h]; simp),
      fun hv => absurd hv.1 (not_lt.mpr hb)⟩, fun _ => by rw [h]; simp⟩

/-- Witness for C2: evaluated on the invalid Scenario-E configuration. -/
theorem C2_validate_iff_witness :
    (cfgE.validate = [] ↔ (cfgE.buy_price < cfgE.sell_price ∧ 0 < cfgE.order_size)) ∧
      (¬(cfgE.buy_price < cfgE.sell_price ∧ 0 < cfgE.order_size) →
        1 ≤ cfgE.validate.length) :=
  C2_validate_iff cfgE

/-- Claim C3: if the metadata lookup fails or the configuration is invalid,
`on_start` returns without panicking, emits no orders, and requests its own
termination exactly once with a non-empty reason. -/
theorem C3_fatal_start (cfg : SimpleConfig) (lookup : Option InstrumentMeta)
    (nid : ℕ) (hfail : lookup = none ∨ cfg.validate ≠ []) :
    ∃ s cmds nid',
      (SimpleStrategy.new cfg).on_start lookup nid = some (s, cmds, nid') ∧
        countStops cmds = 1 ∧ orderCmds cmds = [] ∧ stopReasonsNonempty cmds := by
  have hcase : lookup = none ∨ (∃ m, lookup = some m) ∧ cfg.validate ≠ [] := by
    rcases hfail with rfl | hv
    · exact Or.inl rfl
    · cases lookup with
      | none => exact Or.inl rfl
      | some m => exact Or.inr ⟨⟨m, rfl⟩, hv⟩
  rcases hcase with rfl | ⟨⟨m, rfl⟩, hv⟩
  · have heq : (SimpleStrategy.new cfg).on_start none nid =
        some ({ SimpleStrategy.new cfg with meta := none },
          [Cmd.stopStrategy cfg.strategy_id "Instrument not found"], nid) := rfl
    refine ⟨_, _, _, heq, ?_, ?_, ?_⟩
    · rfl
    · rfl
    · intro i r hmem
      rcases List.mem_cons.mp hmem with hmeq | hmem'
      · cases hmeq; decide
      · cases hmem'
  · have hne : cfg.validate.isEmpty = false := by
      cases hl : cfg.validate with
      | nil => exact absurd hl hv
      | cons a l => rfl
    have heq : (SimpleStrategy.new cfg).on_start (some m) nid =
        some ({ SimpleStrategy.new cfg with meta := some m },
          [Cmd.stopStrategy cfg.strategy_id (String.intercalate "; " cfg.validate)],
          nid) := by
      have hcond : ¬((SimpleStrategy.new cfg).config.validate.isEmpty = true) := by
        simpa using hv
      simp only [SimpleStrategy.on_start]
      rw [if_neg hcond]
      rfl
    refine ⟨_, _, _, heq, ?_, ?_, ?_⟩
    · rfl
    · rfl
    · intro i r hmem
      rcases List.mem_cons.mp hmem with hmeq | hmem'
      · cases hmeq
        exact intercalate_validate_ne cfg hv
      · cases hmem'

/-- Witness for C3: Scenario E (`buy_price=110, sell_price=100`, metadata
present) yields one stop request and zero orders. -/
theorem C3_fatal_start_witness :
    ((some metaA = (none : Option InstrumentMeta)) ∨ cfgE.validate ≠ []) ∧
      (∃ s cmds nid',
        (SimpleStrategy.new cfgE).on_start (some metaA) 0 = some (s, cmds, nid') ∧
          countStops cmds = 1 ∧ orderCmds cmds = [] ∧ stopReasonsNonempty cmds) :=
  ⟨Or.inr (by decide), C3_fatal_start cfgE (some metaA) 0 (Or.inr (by decide))⟩

/-- Claim C4: with metadata cached, an `OrderCanceled` or `OrderRejected`
event in any runtime state resets and immediately re-places a buy: the
callback emits exactly one order command (a buy carrying the fresh id), ends
in `BuyPlaced` with `active_order` the fresh id, and requests no
termination. -/
theorem C4_reset (s : SimpleStrategy) (m : InstrumentMeta) (e : Event) (nid : ℕ)
    (hm : s.meta = some m)
    (he : (∃ c, e = Event.OrderCanceled c) ∨ (∃ c, e = Event.OrderRejected c)) :
    ∃ s' cmds nid',
      s.on_event e nid = some (s', cmds, nid') ∧
        s'.state.phase = Phase.BuyPlaced ∧
        s'.state.active_order = some nid ∧
        (∃ o, orderCmds cmds = [o] ∧ o.side = OrderSide.Buy ∧ o.client_id = nid) ∧
        countStops cmds = 0 := by
  have hreset : ({ s with state := ⟨Phase.WaitingToBuy, none⟩ } : SimpleStrategy).meta
      = some m := hm
  rcases he with ⟨c, rfl⟩ | ⟨c, rfl⟩ <;>
    · simp only [SimpleStrategy.on_event]
      rw [place_buy_eq _ m nid hreset]
      exact ⟨_, _, _, rfl, rfl, rfl, ⟨_, rfl, rfl, rfl⟩, rfl⟩

/-- Witness for C4: a cancel arriving in `BuyPlaced`. -/
theorem C4_reset_witness :
    ∃ s' cmds nid',
      (SimpleStrategy.mk cfgA ⟨Phase.BuyPlaced, some 5⟩ (some metaA)).on_event
          (Event.OrderCanceled ⟨5⟩) 6 = some (s', cmds, nid') ∧
        s'.state.phase = Phase.BuyPlaced ∧
        s'.state.active_order = some 6 ∧
        (∃ o, orderCmds cmds = [o] ∧ o.side = OrderSide.Buy ∧ o.client_id = 6) ∧
        countStops cmds = 0 :=
  C4_reset (SimpleStrategy.mk cfgA ⟨Phase.BuyPlaced, some 5⟩ (some metaA)) metaA
    (Event.OrderCanceled ⟨5⟩) 6 rfl (Or.inl ⟨⟨5⟩, rfl⟩)

/-- Claim C5: an `OrderCompleted` event in `BuyPlaced` moves the strategy to
`SellPlaced` and emits exactly one sell order whose truncated quantity is at
most the buy order's nearest-lot-rounded quantity. -/
theorem C5_cycle (s : SimpleStrategy) (m : InstrumentMeta) (c : OrderCompletedEv)
    (nid : ℕ) (hm : s.meta = some m) (hph : s.state.phase = Phase.BuyPlaced)
    (hlot : 0 < m.lot_size) :
    ∃ s' cmds nid',
      s.on_event (Event.OrderCompleted c) nid = some (s', cmds, nid') ∧
        s'.state.phase = Phase.SellPlaced ∧
        (∃ o, orderCmds cmds = [o] ∧ o.side = OrderSide.Sell ∧
          o.qty = m.trunc_qty s.config.order_size ∧
          o.qty ≤ m.round_qty s.config.order_size) := by
  have hle : m.trunc_qty s.config.order_size ≤ m.round_qty s.config.order_size := by
    unfold InstrumentMeta.trunc_qty InstrumentMeta.round_qty
    have hf : (⌊s.config.order_size / m.lot_size⌋ : ℤ)
        ≤ round (s.config.order_size / m.lot_size) := by
      rw [round_eq]
      exact Int.floor_le_floor (by linarith)
    exact mul_le_mul_of_nonneg_right (by exact_mod_cast hf) (le_of_lt hlot)
  simp only [SimpleStrategy.on_event]
  rw [hph, place_sell_eq s m nid hm]
  exact ⟨_, _, _, rfl, rfl, _, rfl, rfl, rfl, hle⟩

/-- Witness for C5: a buy fill with metadata of lot size 1/10. -/
theorem C5_cycle_witness :
    ∃ s' cmds nid',
      (SimpleStrategy.mk cfgA ⟨Phase.BuyPlaced, some 0⟩ (some metaA)).on_event
          (Event.OrderCompleted ⟨0, 100, 1⟩) 1 = some (s', cmds, nid') ∧
        s'.state.phase = Phase.SellPlaced ∧
        (∃ o, orderCmds cmds = [o] ∧ o.side = OrderSide.Sell ∧
          o.qty = metaA.trunc_qty
            (SimpleStrategy.mk cfgA ⟨Phase.BuyPlaced, some 0⟩ (some metaA)).config.order_size ∧
          o.qty ≤ metaA.round_qty
            (SimpleStrategy.mk cfgA ⟨Phase.BuyPlaced, some 0⟩ (some metaA)).config.order_size) :=
  C5_cycle (SimpleStrategy.mk cfgA ⟨Phase.BuyPlaced, some 0⟩ (some metaA)) metaA
    ⟨0, 100, 1⟩ 1 rfl rfl (by norm_num [metaA])

/-- Counterexample to C6 as stated: on the invalid Scenario-E configuration
(`validate` non-empty), a run in which the host still delivers an
`OrderCanceled` event after the failed start makes the automaton emit a
`place_order` command — the reset arm of `on_event` re-places a buy even
though `on_start` had requested termination. -/
theorem C6_counterexample :
    cfgE.validate ≠ [] ∧
      (startedRun cfgE (some metaA) [Callback.event (Event.OrderCanceled ⟨0⟩)] 0).map
        (fun r => (orderCmds r.2.1).length) = some 1 := by
  constructor
  · decide
  · decide

/-- Claim C6 (amended): for every invalid configuration, `on_start` emits no
`place_order` and requests termination exactly once; hence in a run in which
the host honours the stop request (no callbacks are delivered after
`on_start`), no `place_order` command is ever emitted. -/
theorem C6_amended (cfg : SimpleConfig) (lookup : Option InstrumentMeta)
    (nid : ℕ) (hv : cfg.validate ≠ []) (r : SimpleStrategy × List Cmd × ℕ)
    (h : startedRun cfg lookup [] nid = some r) :
    orderCmds r.2.1 = [] ∧ countStops r.2.1 = 1 := by
  cases lookup with
  | none =>
      simp only [startedRun, SimpleStrategy.on_start, runCallbacks] at h
      injection h with h
      subst h
      exact ⟨rfl, rfl⟩
  | some m =>
      have hcond : ¬((SimpleStrategy.new cfg).config.validate.isEmpty = true) := by
        simpa using hv
      simp only [startedRun, SimpleStrategy.on_start] at h
      rw [if_neg hcond] at h
      simp only [runCallbacks] at h
      injection h with h
      subst h
      exact ⟨rfl, rfl⟩

/-- Witness for C6 (amended): Scenario E with metadata present and a
conforming host. -/
theorem C6_amended_witness :
    orderCmds (SimpleStrategy.mk cfgE SimpleState.new (some metaA),
        [Cmd.stopStrategy "simple-1" "buy_price must be < sell_price"],
        0).2.1 = [] ∧
      countStops (SimpleStrategy.mk cfgE SimpleState.new (some metaA),
        [Cmd.stopStrategy "simple-1" "buy_price must be < sell_price"],
        0).2.1 = 1 :=
  C6_amended cfgE (some metaA) 0 (by decide)
    (SimpleStrategy.mk cfgE SimpleState.new (some metaA),
      [Cmd.stopStrategy "simple-1" "buy_price must be < sell_price"], 0)
    (by rfl)

/-- Claim C7: in both placement helpers the runtime-state mutations (recording
the fresh id, entering the placed phase) come strictly before the
`place_order` emission in the effect trace, and interpreting the trace up to
that emission already yields the consistent placed state with no command yet
emitted. -/
theorem C7_effect_order (s : SimpleStrategy) (m : InstrumentMeta) (nid : ℕ)
    (st : SimpleState) :
    (∃ ob lb, place_buy_trace s m nid =
        [Effect.setActiveOrder (some nid), Effect.setPhase Phase.BuyPlaced,
          Effect.emit (Cmd.placeOrder ob), Effect.emit (Cmd.logInfo lb)] ∧
      (runEffects st ((place_buy_trace s m nid).take 2)).1 =
        ⟨Phase.BuyPlaced, some nid⟩ ∧
      (runEffects st ((place_buy_trace s m nid).take 2)).2 = []) ∧
    (∃ os ls, place_sell_trace s m nid =
        [Effect.setActiveOrder (some nid), Effect.setPhase Phase.SellPlaced,
          Effect.emit (Cmd.placeOrder os), Effect.emit (Cmd.logInfo ls)] ∧
      (runEffects st ((place_sell_trace s m nid).take 2)).1 =
        ⟨Phase.SellPlaced, some nid⟩ ∧
      (runEffects st ((place_sell_trace s m nid).take 2)).2 = []) :=
  ⟨⟨_, _, rfl, rfl, rfl⟩, ⟨_, _, rfl, rfl, rfl⟩⟩

/-- Claim C8: events without a dedicated arm in the simple strategy's
`on_event` (`Quote` and every kind other than the three terminal order
events) leave phase and `active_order` unchanged and emit no order or cancel
commands (in fact no commands at all). -/
theorem C8_ignored_events (s : SimpleStrategy) (e : Event) (nid : ℕ)
    (h : e.isOrderTerminal = false) :
    ∃ s' cmds nid',
      s.on_event e nid = some (s', cmds, nid') ∧
        s'.state.phase = s.state.phase ∧
        s'.state.active_order = s.state.active_order ∧
        orderCmds cmds = [] ∧ countCancels cmds = 0 ∧ cmds = [] := by
  rw [on_event_ignored s e nid h]
  exact ⟨s, [], nid, rfl, rfl, rfl, rfl, rfl, rfl⟩

/-- Witness for C8: a quote event in `BuyPlaced`. -/
theorem C8_ignored_events_witness :
    ∃ s' cmds nid',
      (SimpleStrategy.mk cfgA ⟨Phase.BuyPlaced, some 0⟩ (some metaA)).on_event
          (Event.Quote ⟨99, 101⟩) 1 = some (s', cmds, nid') ∧
        s'.state.phase =
          (SimpleStrategy.mk cfgA ⟨Phase.BuyPlaced, some 0⟩ (some metaA)).state.phase ∧
        s'.state.active_order =
          (SimpleStrategy.mk cfgA ⟨Phase.BuyPlaced, some 0⟩ (some metaA)).state.active_order ∧
        orderCmds cmds = [] ∧ countCancels cmds = 0 ∧ cmds = [] :=
  C8_ignored_events (SimpleStrategy.mk cfgA ⟨Phase.BuyPlaced, some 0⟩ (some metaA))
    (Event.Quote ⟨99, 101⟩) 1 rfl

/-- A template-strategy state with the log interval elapsed but no observed
mid price. -/
def st9 : MyState :=
  ⟨true, none, none, 0⟩

/-- Counterexample to C9 as stated: with `last_mid = None` and more than
30 000 ms elapsed, `on_timer` updates `last_log_ts` but emits no status log,
contradicting "a status log is emitted and last_log_ts is updated". -/
theorem C9_counterexample :
    (30000 : ℤ) < 40000 - st9.last_log_ts ∧
      (MyStrategy.on_timer st9 40000).2 = [] ∧
      (MyStrategy.on_timer st9 40000).1.last_log_ts = 40000 := by
  refine ⟨by decide, ?_, ?_⟩
  · decide
  · decide

/-- Claim C9 (amended): on a timer callback, if more than 30 000 ms have
elapsed since `last_log_ts` then `last_log_ts` is set to the current time and
a status log is emitted exactly when a mid price has been observed; if not,
state and output are untouched; and in every case the trading fields
(`is_initialized`, `last_mid`, `active_order`) are unchanged and no order
commands are emitted. -/
theorem C9_amended (st : MyState) (now : ℤ) :
    ((30000 : ℤ) < now - st.last_log_ts →
        (MyStrategy.on_timer st now).1 = { st with last_log_ts := now } ∧
        ((st.last_mid = none ∧ (MyStrategy.on_timer st now).2 = []) ∨
          (∃ mid, st.last_mid = some mid ∧
            (MyStrategy.on_timer st now).2 =
              [Cmd.logInfo (statusMsg mid st.active_order)]))) ∧
      (¬(30000 : ℤ) < now - st.last_log_ts →
        MyStrategy.on_timer st now = (st, [])) ∧
      (MyStrategy.on_timer st now).1.active_order = st.active_order ∧
      (MyStrategy.on_timer st now).1.is_initialized = st.is_initialized ∧
      (MyStrategy.on_timer st now).1.last_mid = st.last_mid ∧
      orderCmds (MyStrategy.on_timer st now).2 = [] := by
  by_cases hc : (30000 : ℤ) < now - st.last_log_ts
  · have hmo : st.last_mid = none ∨ ∃ mid, st.last_mid = some mid := by
      cases st.last_mid
      · exact Or.inl rfl
      · exact Or.inr ⟨_, rfl⟩
    rcases hmo with hmid | ⟨mid, hmid⟩
    · have hev : MyStrategy.on_timer st now = ({ st with last_log_ts := now }, []) := by
        simp only [MyStrategy.on_timer, if_pos hc, hmid]
      rw [hev]
      exact ⟨fun _ => ⟨rfl, Or.inl ⟨hmid, rfl⟩⟩, fun hn => absurd hc hn,
        rfl, rfl, rfl, rfl⟩
    · have hev : MyStrategy.on_timer st now =
          ({ st with last_log_ts := now },
            [Cmd.logInfo (statusMsg mid st.active_order)]) := by
        simp only [MyStrategy.on_timer, if_pos hc, hmid]
      rw [hev]
      exact ⟨fun _ => ⟨rfl, Or.inr ⟨mid, hmid, rfl⟩⟩, fun hn => absurd hc hn,
        rfl, rfl, rfl, rfl⟩
  · have hev : MyStrategy.on_timer st now = (st, []) := by
      simp only [MyStrategy.on_timer, if_neg hc]
    rw [hev]
    exact ⟨fun hp => absurd hp hc, fun _ => rfl, rfl, rfl, rfl, rfl⟩

/-- Witness for C9 (amended): evaluated at the elapsed-interval state `st9`. -/
theorem C9_amended_witness :
    ((30000 : ℤ) < 40000 - st9.last_log_ts →
        (MyStrategy.on_timer st9 40000).1 = { st9 with last_log_ts := 40000 } ∧
        ((st9.last_mid = none ∧ (MyStrategy.on_timer st9 40000).2 = []) ∨
          (∃ mid, st9.last_mid = some mid ∧
            (MyStrategy.on_timer st9 40000).2 =
              [Cmd.logInfo (statusMsg mid st9.active_order)]))) ∧
      (¬(30000 : ℤ) < 40000 - st9.last_log_ts →
        MyStrategy.on_timer st9 40000 = (st9, [])) ∧
      (MyStrategy.on_timer st9 40000).1.active_order = st9.active_order ∧
      (MyStrategy.on_timer st9 40000).1.is_initialized = st9.is_initialized ∧
      (MyStrategy.on_timer st9 40000).1.last_mid = st9.last_mid ∧
      orderCmds (MyStrategy.on_timer st9 40000).2 = [] :=
  C9_amended st9 40000

/-- Claim C10: the metadata cache is written only by `on_start`; in every run
whose lookup succeeded the cache stays `Some` for the whole run, so every
`place_buy`/`place_sell` unwrap succeeds — the run never panics, whatever
callbacks are delivered. -/
theorem C10_meta_stable (cfg : SimpleConfig) (m : InstrumentMeta)
    (cbs : List Callback) (nid : ℕ) :
    ∃ r, startedRun cfg (some m) cbs nid = some r ∧ r.1.meta = some m := by
  obtain ⟨⟨s1, cmds1, nid1⟩, heq1⟩ :=
    on_start_progress (SimpleStrategy.new cfg) (some m) nid
  obtain ⟨h1, -, -⟩ := on_start_shape _ _ _ _ heq1
  obtain ⟨⟨s2, cmds2, nid2⟩, heq2⟩ := runCallbacks_progress cbs s1 m nid1 h1
  obtain ⟨h2, -, -⟩ := runCallbacks_shape cbs s1 nid1 (s2, cmds2, nid2) heq2
  exact ⟨(s2, cmds1 ++ cmds2, nid2),
    by simp only [startedRun, heq1, heq2], h2.trans h1⟩

end Supurr
